/-
Verification of the game-asset processing scripts (retargeting,
track consolidation, asset deduplication, pose validation) against their
natural-language specification.  Each operation of the scripts is embedded
shallowly: matrices of `mathutils` become rational 4x4 matrices, Blender
datablocks become explicit structures, and the mutation performed by each
script becomes explicit state passing.
-/
import Mathlib

namespace GameAsset

/-! ## Transform matrices

`mathutils.Matrix` values are modelled as 4x4 rational matrices.  `minv`
models `Matrix.inverted()`: for an invertible matrix it is the true inverse
(adjugate over determinant). -/

abbrev M4 : Type := Matrix (Fin 4) (Fin 4) ℚ

def minv (A : M4) : M4 := A.det⁻¹ • A.adjugate

lemma minv_one : minv (1 : M4) = 1 := by
  simp [minv, Matrix.det_one, Matrix.adjugate_one]

lemma mul_minv_self (A : M4) (h : A.det ≠ 0) : A * minv A = 1 := by
  unfold minv
  rw [Matrix.mul_smul, Matrix.mul_adjugate, smul_smul, inv_mul_cancel₀ h, one_smul]

lemma minv_mul_self (A : M4) (h : A.det ≠ 0) : minv A * A = 1 := by
  unfold minv
  rw [Matrix.smul_mul, Matrix.adjugate_mul, smul_smul, inv_mul_cancel₀ h, one_smul]

/-! ## Retargeting (synty-animation-skeleton-to-tpose-testing.py)

`retarget_preserve_current(source_arm, target_arm, frame_start, frame_end)`:
an armature object carries its object-to-world matrix (`obj.matrix_world`),
its rest bones (`obj.data.bones`, each with its armature-space rest matrix
`matrix_local`), and its animated pose (`obj.pose.bones[bn].matrix` read at
the scene frame set by `frame_set`, modelled as the function `poseAt`).
Assigning `tgt_pose_b.matrix` followed by `keyframe_insert` of
rotation_quaternion / location / scale bakes, for that bone and frame, the
transform whose decomposition those three channels are; the bake is modelled
as a stack of (bone, frame, assigned armature-space matrix) samples, the most
recent write shadowing older ones. -/

structure Armature where
  matrix_world : M4
  bones : List (String × M4)
  poseAt : Nat → String → M4

def boneNames (a : Armature) : List String := a.bones.map Prod.fst

/-- The bones mapped by the retarget:
`[bn.name for bn in source_arm.data.bones if bn.name in target_arm.data.bones]`. -/
def commonBones (src tgt : Armature) : List String :=
  (boneNames src).filter (fun bn => (boneNames tgt).contains bn)

/-- `arm.data.bones[bn].matrix_local`, the armature-space rest matrix. -/
def boneLocal (a : Armature) (bn : String) : M4 := (a.bones.lookup bn).getD 1

/-- `arm.matrix_world @ arm.data.bones[bn].matrix_local` (src_rest_world /
tgt_rest_world in the script). -/
def restWorld (a : Armature) (bn : String) : M4 := a.matrix_world * boneLocal a bn

/-- `arm.matrix_world @ arm.pose.bones[bn].matrix` at frame `f`
(src_pose_world in the script). -/
def poseWorld (a : Armature) (f : Nat) (bn : String) : M4 :=
  a.matrix_world * a.poseAt f bn

/-- The per-bone delta dictionary precomputed at `frame_start`:
`deltas[bn] = src_rest_world.inverted() @ src_pose_world`. -/
def retargetDeltas (src tgt : Armature) (frame_start : Nat) : List (String × M4) :=
  (commonBones src tgt).foldl
    (fun acc bn => (bn, minv (restWorld src bn) * poseWorld src frame_start bn) :: acc) []

/-- The armature-space matrix assigned to the target pose bone at frame `f`:
`desired_world = tgt_rest_world @ (matrix_local.inverted() @ src_pose_world)`
then `tgt_pose_b.matrix = target_arm.matrix_world.inverted() @ desired_world`. -/
def bakeBone (src tgt : Armature) (f : Nat) (bn : String) : M4 :=
  minv tgt.matrix_world *
    (restWorld tgt bn * (minv (boneLocal src bn) * poseWorld src f bn))

def bakeFrame (src tgt : Armature) (f : Nat) (acc : List (String × Nat × M4)) :
    List (String × Nat × M4) :=
  (commonBones src tgt).foldl (fun a bn => (bn, f, bakeBone src tgt f bn) :: a) acc

/-- `range(frame_start, frame_end + 1)`. -/
def frameList (fs fe : Nat) : List Nat := List.range' fs (fe + 1 - fs)

/-- All samples keyframed by the retarget loop. -/
def retargetSamples (src tgt : Armature) (fs fe : Nat) : List (String × Nat × M4) :=
  (frameList fs fe).foldl (fun acc f => bakeFrame src tgt f acc) []

/-- Reading back the baked sample of bone `bn` at frame `f` (the most recent
keyframe written for that bone and frame). -/
def sampleLookup : List (String × Nat × M4) → String → Nat → Option M4
  | [], _, _ => none
  | e :: rest, bn, f =>
      if e.1 = bn ∧ e.2.1 = f then some e.2.2 else sampleLookup rest bn f

def deltaLookup : List (String × M4) → String → Option M4
  | [], _ => none
  | e :: rest, bn => if e.1 = bn then some e.2 else deltaLookup rest bn

/-- The spec's error taxonomy names an `EmptySkeletonError` for retargeting;
the script raises nothing, so the run always succeeds. -/
inductive RetargetError
  | emptySkeletonError
deriving DecidableEq

structure RetargetResult where
  deltas : List (String × M4)
  samples : List (String × Nat × M4)

def retargetRun (src tgt : Armature) (fs fe : Nat) :
    Except RetargetError RetargetResult :=
  .ok ⟨retargetDeltas src tgt fs, retargetSamples src tgt fs fe⟩

/-! ### Lookup lemmas for the bake loop -/

lemma foldl_push {α β : Type} (l : List α) (g : α → β) (acc : List β) :
    l.foldl (fun a x => g x :: a) acc = l.reverse.map g ++ acc := by
  induction l generalizing acc with
  | nil => rfl
  | cons x xs ih =>
      simp only [List.foldl_cons, List.reverse_cons, List.map_append, List.map_cons,
        List.map_nil, List.append_assoc, List.singleton_append]
      exact ih (g x :: acc)

lemma sampleLookup_append (l₁ l₂ : List (String × Nat × M4)) (bn : String) (f : Nat) :
    sampleLookup (l₁ ++ l₂) bn f =
      match sampleLookup l₁ bn f with
      | some v => some v
      | none => sampleLookup l₂ bn f := by
  induction l₁ with
  | nil => rfl
  | cons e rest ih =>
      by_cases h : e.1 = bn ∧ e.2.1 = f
      · simp [sampleLookup, h]
      · simp [sampleLookup, h, ih]

lemma sampleLookup_map_keyed (l : List String) (f : Nat) (v : String → M4)
    (bn : String) (h : bn ∈ l) :
    sampleLookup (l.map (fun x => (x, f, v x))) bn f = some (v bn) := by
  induction l with
  | nil => cases h
  | cons x xs ih =>
      by_cases hx : x = bn
      · subst hx; simp [sampleLookup]
      · have hmem : bn ∈ xs := by
          cases h with
          | head => exact absurd rfl hx
          | tail _ h' => exact h'
        simpa [sampleLookup, hx] using ih hmem

lemma sampleLookup_map_keyed_ne (l : List String) (f' f : Nat) (v : String → M4)
    (bn : String) (h : f' ≠ f) :
    sampleLookup (l.map (fun x => (x, f', v x))) bn f = none := by
  induction l with
  | nil => rfl
  | cons x xs ih => simp [sampleLookup, h, ih]

lemma sampleLookup_bakeFrame_mem {src tgt : Armature} {bn : String} (f : Nat)
    (acc : List (String × Nat × M4)) (h : bn ∈ commonBones src tgt) :
    sampleLookup (bakeFrame src tgt f acc) bn f = some (bakeBone src tgt f bn) := by
  rw [bakeFrame, foldl_push, sampleLookup_append,
    sampleLookup_map_keyed _ _ _ _ (List.mem_reverse.mpr h)]

lemma sampleLookup_bakeFrame_ne {src tgt : Armature} {bn : String} {f' f : Nat}
    (acc : List (String × Nat × M4)) (h : f' ≠ f) :
    sampleLookup (bakeFrame src tgt f' acc) bn f = sampleLookup acc bn f := by
  rw [bakeFrame, foldl_push, sampleLookup_append,
    sampleLookup_map_keyed_ne _ _ _ _ _ h]

lemma sampleLookup_frames_not_mem {src tgt : Armature} {bn : String} {f : Nat}
    (frames : List Nat) (acc : List (String × Nat × M4)) (h : f ∉ frames) :
    sampleLookup (frames.foldl (fun a fr => bakeFrame src tgt fr a) acc) bn f =
      sampleLookup acc bn f := by
  induction frames generalizing acc with
  | nil => rfl
  | cons fr rest ih =>
      have hne : fr ≠ f := fun he => h (he ▸ List.mem_cons_self fr rest)
      have hrest : f ∉ rest := fun hm => h (List.mem_cons_of_mem fr hm)
      rw [List.foldl_cons, ih _ hrest, sampleLookup_bakeFrame_ne _ hne]

lemma sampleLookup_frames_mem {src tgt : Armature} {bn : String} {f : Nat}
    (frames : List Nat) (acc : List (String × Nat × M4)) (hf : f ∈ frames)
    (hb : bn ∈ commonBones src tgt) :
    sampleLookup (frames.foldl (fun a fr => bakeFrame src tgt fr a) acc) bn f =
      some (bakeBone src tgt f bn) := by
  induction frames generalizing acc with
  | nil => cases hf
  | cons fr rest ih =>
      by_cases hr : f ∈ rest
      · rw [List.foldl_cons]; exact ih _ hr
      · have hfr : fr = f := by
          cases hf with
          | head => rfl
          | tail _ h' => exact absurd h' hr
        subst hfr
        rw [List.foldl_cons, sampleLookup_frames_not_mem _ _ hr,
          sampleLookup_bakeFrame_mem _ _ hb]

lemma mem_frameList {f fs fe : Nat} : f ∈ frameList fs fe ↔ fs ≤ f ∧ f ≤ fe := by
  rw [frameList, List.mem_range'_1]
  omega

lemma deltaLookup_append (l₁ l₂ : List (String × M4)) (bn : String) :
    deltaLookup (l₁ ++ l₂) bn =
      match deltaLookup l₁ bn with
      | some v => some v
      | none => deltaLookup l₂ bn := by
  induction l₁ with
  | nil => rfl
  | cons e rest ih =>
      by_cases h : e.1 = bn
      · simp [deltaLookup, h]
      · simp [deltaLookup, h, ih]

lemma deltaLookup_map_keyed (l : List String) (v : String → M4) (bn : String)
    (h : bn ∈ l) :
    deltaLookup (l.map (fun x => (x, v x))) bn = some (v bn) := by
  induction l with
  | nil => cases h
  | cons x xs ih =>
      by_cases hx : x = bn
      · subst hx; simp [deltaLookup]
      · have hmem : bn ∈ xs := by
          cases h with
          | head => exact absurd rfl hx
          | tail _ h' => exact h'
        simpa [deltaLookup, hx] using ih hmem

lemma deltaLookup_retargetDeltas {src tgt : Armature} {bn : String} (fs : Nat)
    (h : bn ∈ commonBones src tgt) :
    deltaLookup (retargetDeltas src tgt fs) bn =
      some (minv (restWorld src bn) * poseWorld src fs bn) := by
  rw [retargetDeltas, foldl_push, List.append_nil,
    deltaLookup_map_keyed _ _ _ (List.mem_reverse.mpr h)]

/-- C1: for every bone common to the source and target skeletons and every
sampled frame `f` in the clip's range, the retarget bakes as the sample for
`(bone, f)` the world transform
`target_rest_world(b) * inverse(source_rest_local(b)) * source_pose_world(b,f)`
converted into the target skeleton's local space by the inverse of the
target's world transform (whose decomposition the keyed rotation, location
and scale channels are). -/
theorem retarget_sample_formula (src tgt : Armature) (fs fe : Nat) (bn : String)
    (f : Nat) (hb : bn ∈ commonBones src tgt) (h1 : fs ≤ f) (h2 : f ≤ fe) :
    sampleLookup (retargetSamples src tgt fs fe) bn f =
      some (minv tgt.matrix_world *
        (restWorld tgt bn * (minv (boneLocal src bn) * poseWorld src f bn))) := by
  have hf : f ∈ frameList fs fe := mem_frameList.mpr ⟨h1, h2⟩
  exact sampleLookup_frames_mem _ _ hf hb

def witSrc : Armature := ⟨1, [(("hips"), 1)], fun _ _ => 1⟩

def witTgt : Armature := ⟨1, [(("hips"), 1)], fun _ _ => 1⟩

theorem retarget_sample_formula_witness :
    ("hips") ∈ commonBones witSrc witTgt ∧
      sampleLookup (retargetSamples witSrc witTgt 1 2) ("hips") 1 =
        some (minv witTgt.matrix_world *
          (restWorld witTgt ("hips") *
            (minv (boneLocal witSrc ("hips")) * poseWorld witSrc 1 ("hips")))) :=
  ⟨by decide,
   retarget_sample_formula witSrc witTgt 1 2 ("hips") 1 (by decide) (by decide)
     (by decide)⟩

/-- C2 (amended): retargeting a skeleton onto an identical copy of itself,
when the shared object world transform is the identity and the rest matrix
of the bone is invertible, reproduces the source pose matrix at every
sampled frame (in particular at the reference frame); the per-bone delta
computed at the reference frame equals `inverse(rest_local) * pose(reference)`
— it is the identity exactly when the reference pose equals the rest pose,
not merely because source and target rest transforms coincide (and the bake
never reads it). -/
theorem retarget_identity_copy (A : Armature) (fs fe f : Nat) (bn : String)
    (hW : A.matrix_world = 1) (hdet : (boneLocal A bn).det ≠ 0)
    (hb : bn ∈ commonBones A A) (h1 : fs ≤ f) (h2 : f ≤ fe) :
    sampleLookup (retargetSamples A A fs fe) bn f = some (A.poseAt f bn) ∧
      deltaLookup (retargetDeltas A A fs) bn =
        some (minv (boneLocal A bn) * A.poseAt fs bn) := by
  constructor
  · have h := sampleLookup_frames_mem (frameList fs fe) []
      (mem_frameList.mpr ⟨h1, h2⟩) hb
    rw [retargetSamples, h, bakeBone, restWorld, poseWorld, hW, minv_one]
    rw [one_mul, one_mul, one_mul, ← mul_assoc, mul_minv_self _ hdet, one_mul]
  · rw [deltaLookup_retargetDeltas fs hb, restWorld, poseWorld, hW, one_mul, one_mul]

theorem retarget_identity_copy_witness :
    sampleLookup (retargetSamples witSrc witSrc 1 2) ("hips") 1 =
        some (witSrc.poseAt 1 ("hips")) ∧
      deltaLookup (retargetDeltas witSrc witSrc 1) ("hips") =
        some (minv (boneLocal witSrc ("hips")) * witSrc.poseAt 1 ("hips")) :=
  retarget_identity_copy witSrc 1 2 1 ("hips") rfl
    (by rw [show boneLocal witSrc ("hips") = 1 from rfl, Matrix.det_one]
        exact one_ne_zero)
    (by decide) (by decide) (by decide)

/-- A translation by one unit along x: a pose that differs from the rest pose. -/
def cT : M4 :=
  Matrix.of ![![1, 0, 0, 1], ![0, 1, 0, 0], ![0, 0, 1, 0], ![0, 0, 0, 1]]

/-- An armature whose pose at every frame (including the reference frame) is
the translation `cT`, while its rest transform is the identity. -/
def cArm : Armature := ⟨1, [(("hips"), 1)], fun _ _ => cT⟩

/-- An armature whose object carries the non-identity world transform `cT`
while its single bone rests at the identity and is posed exactly at rest at
every frame. -/
def cArm2 : Armature := ⟨cT, [(("hips"), 1)], fun _ _ => 1⟩

lemma cT_det_ne_zero : cT.det ≠ 0 := by
  have h : cT.det = 1 := by
    simp [cT, Matrix.det_succ_row_zero, Fin.sum_univ_succ]
  rw [h]
  exact one_ne_zero

/-- C2 counterexample, refuting both halves of the claim at concrete inputs.
(i) Retargeting `cArm` onto the identical copy of itself — source and target
rest transforms coincide — yields at the reference frame a per-bone delta
equal to the translation `cT`, which is **not** the identity transform.
(ii) Retargeting `cArm2` — an identical copy pair whose shared armature
object world transform is the translation `cT` and whose pose equals its
rest — onto itself bakes at the reference frame the sample `cT`, not the
source pose (the identity): the object transform enters the bake twice
because the inverted factor `matrix_local.inverted()` omits `matrix_world`,
so the exact-reproduction clause fails for non-identity world transforms. -/
theorem retarget_identity_copy_cex :
    (deltaLookup (retargetDeltas cArm cArm 1) ("hips") = some cT ∧ cT ≠ (1 : M4)) ∧
      sampleLookup (retargetSamples cArm2 cArm2 1 2) ("hips") 1 = some cT ∧
        cT ≠ cArm2.poseAt 1 ("hips") := by
  refine ⟨⟨?_, ?_⟩, ?_, ?_⟩
  · rw [deltaLookup_retargetDeltas 1 (show ("hips") ∈ commonBones cArm cArm by decide),
      restWorld, poseWorld]
    show some (minv ((1 : M4) * 1) * ((1 : M4) * cT)) = some cT
    simp [minv_one]
  · intro hEq
    have h03 := congrFun (congrFun hEq 0) 3
    have hL : cT 0 3 = 1 := rfl
    have hR : (1 : M4) 0 3 = 0 := Matrix.one_apply_ne (by decide)
    rw [hL, hR] at h03
    exact one_ne_zero h03
  · have hb : ("hips") ∈ commonBones cArm2 cArm2 := by decide
    have h := sampleLookup_frames_mem (frameList 1 2) []
      (mem_frameList.mpr ⟨le_refl 1, by norm_num⟩) hb
    rw [retargetSamples, h]
    congr 1
    show minv cT * ((cT * 1) * (minv (1 : M4) * (cT * 1))) = cT
    rw [mul_one, minv_one, one_mul]
    rw [← mul_assoc, minv_mul_self _ cT_det_ne_zero, one_mul]
  · intro hEq
    have h03 := congrFun (congrFun hEq 0) 3
    have hL : cT 0 3 = 1 := rfl
    have hR : cArm2.poseAt 1 ("hips") 0 3 = 0 := Matrix.one_apply_ne (by decide)
    rw [hL, hR] at h03
    exact one_ne_zero h03

lemma bakeFrame_of_no_common {src tgt : Armature} (f : Nat)
    (acc : List (String × Nat × M4)) (h : commonBones src tgt = []) :
    bakeFrame src tgt f acc = acc := by
  rw [bakeFrame, h]; rfl

lemma foldl_bakeFrame_of_no_common {src tgt : Armature}
    (frames : List Nat) (acc : List (String × Nat × M4))
    (h : commonBones src tgt = []) :
    frames.foldl (fun a fr => bakeFrame src tgt fr a) acc = acc := by
  induction frames generalizing acc with
  | nil => rfl
  | cons fr rest ih => rw [List.foldl_cons, bakeFrame_of_no_common _ _ h, ih]

/-- C8 (amended): the retarget operation performs no emptiness validation and
never fails — for every pair of skeletons (empty ones included) the run
succeeds; when the skeletons share no common bones (in particular when either
has zero bones) no sample and no delta is written, leaving the target at its
existing rest pose. -/
theorem retarget_never_fails (src tgt : Armature) (fs fe : Nat) :
    (∀ e : RetargetError, retargetRun src tgt fs fe ≠ .error e) ∧
      (commonBones src tgt = [] →
        retargetSamples src tgt fs fe = [] ∧ retargetDeltas src tgt fs = []) := by
  refine ⟨fun e h => Except.noConfusion h, fun h => ⟨?_, ?_⟩⟩
  · rw [retargetSamples, foldl_bakeFrame_of_no_common _ _ h]
  · rw [retargetDeltas, h]; rfl

/-- An armature with zero bones. -/
def emptyArm : Armature := ⟨1, [], fun _ _ => 1⟩

/-- C8 counterexample: invoking the retarget with a zero-bone source skeleton
does not fail with `EmptySkeletonError` (it does not fail at all): it returns
successfully with empty deltas and samples. -/
theorem retarget_empty_skeleton_ok_cex :
    retargetRun emptyArm witTgt 1 2 = .ok ⟨[], []⟩ ∧
      retargetRun emptyArm witTgt 1 2 ≠ .error .emptySkeletonError := by
  exact ⟨rfl, fun h => Except.noConfusion h⟩

/-! ## Track consolidation (mixamo-add-animations-to-character.py and
mixamo-combine-animations.py)

`combine_characters_and_animations` adds each animation armature's action as
an NLA track on the character armature; `combine_animations_into_skeleton`
does the same onto a duplicated template skeleton.  Python's `str.title()`
and `str.lower()` are modelled character by character (`title` uppercases an
alphabetic character that does not follow an alphabetic character and
lowercases the rest). -/

def pyLower (s : String) : String := String.mk (s.data.map Char.toLower)

def titleAux : Bool → List Char → List Char
  | _, [] => []
  | prevCased, c :: cs =>
      if c.isAlpha then
        (if prevCased then c.toLower else c.toUpper) :: titleAux true cs
      else c :: titleAux false cs

def pyTitle (s : String) : String := String.mk (titleAux false s.data)

/-- The derived NLA track name:
`"None - {file.title()}"` when the parent folder is the reserved collection
name `animations`, else `"{folder} - {file.title()}"` — the folder part is
used verbatim. -/
def deriveTrackName (folderName fileStem : String) : String :=
  if folderName = ("animations") then ("None - ") ++ pyTitle fileStem
  else folderName ++ (" - ") ++ pyTitle fileStem

/-- Modelled from the claim's words, for comparison with `deriveTrackName`:
the title-cased parent folder name, a separator, and the title-cased file
name, with the folder token replaced by `"None"` for the reserved name. -/
def specTitledTrackName (folderName fileStem : String) : String :=
  (if folderName = ("animations") then ("None") else pyTitle folderName) ++
    (" - ") ++ pyTitle fileStem

/-- `bones_match`: set equality of the two armatures' bone-name collections. -/
def bonesMatch (c a : List String) : Bool :=
  c.all (fun b => a.contains b) && a.all (fun b => c.contains b)

structure ActionData where
  name : String
  frameStart : Int
  frameEnd : Int
deriving DecidableEq

structure Strip where
  name : String
  actionName : String
  actionFrameStart : Int
  actionFrameEnd : Int
deriving DecidableEq

structure Track where
  name : String
  strips : List Strip
deriving DecidableEq

structure AnimArm where
  bones : List String
  scale : ℚ × ℚ × ℚ
  folderName : String
  fileStem : String
  action : Option ActionData
deriving DecidableEq

structure CharArm where
  bones : List String
  scale : ℚ × ℚ × ℚ
  tracks : List Track
deriving DecidableEq

inductive CombineError
  | skeletonMismatch
  | scaleMismatch
  | duplicateTrackName
  | actionUnused
  | invalidFrameRange
deriving DecidableEq

/-- `action.users` restricted to what the script can observe after creating
the strip: the number of strips on the character's tracks using the action. -/
def stripsUsing (ts : List Track) (an : String) : Nat :=
  (ts.map (fun t => (t.strips.filter (fun s => s.actionName == an)).length)).sum

/-- The track as created by `nla_tracks.new()` + `strips.new(name, start=0,
action)` before the strip's frame fields are finalized. -/
def pendingTrack (n : String) : Track := ⟨n, [⟨n, n, 0, 0⟩]⟩

/-- The track once the strip's `action_frame_start/end` have been set. -/
def finalTrack (n : String) (act : ActionData) : Track :=
  ⟨n, [⟨n, n, act.frameStart, act.frameEnd⟩]⟩

/-- One iteration of the `for anim_arm in animations.objects` loop of
`combine_characters_and_animations`: bone-set check, scale check, derived
name, case-insensitive duplicate check, then track+strip creation — with the
`users` and frame-range checks running only after the track has been created
(a raise there leaves the new track in the list). -/
def addAnimation (char : CharArm) (anim : AnimArm) : CharArm × Option CombineError :=
  if bonesMatch char.bones anim.bones = false then (char, some .skeletonMismatch)
  else if char.scale ≠ anim.scale then (char, some .scaleMismatch)
  else
    match anim.action with
    | none => (char, none)
    | some act =>
        let animName := deriveTrackName anim.folderName anim.fileStem
        if char.tracks.any (fun t => pyLower t.name == pyLower animName) then
          (char, some .duplicateTrackName)
        else if stripsUsing (char.tracks ++ [pendingTrack animName]) animName = 0 then
          ({ char with tracks := char.tracks ++ [pendingTrack animName] },
            some .actionUnused)
        else if act.frameStart ≥ act.frameEnd then
          ({ char with tracks := char.tracks ++ [pendingTrack animName] },
            some .invalidFrameRange)
        else
          ({ char with tracks := char.tracks ++ [finalTrack animName act] }, none)

/-- The whole loop: a raise aborts the remaining animations. -/
def addAll : CharArm → List AnimArm → CharArm × Option CombineError
  | char, [] => (char, none)
  | char, a :: rest =>
      match addAnimation char a with
      | (c, none) => addAll c rest
      | (c, some e) => (c, some e)

/-- No two tracks carry case-insensitively equal names. -/
def tracksNamesLowerNodup (ts : List Track) : Prop :=
  (ts.map (fun t => pyLower t.name)).Nodup

lemma addAnimation_cases (char : CharArm) (anim : AnimArm) :
    (addAnimation char anim).1 = char ∨
      ∃ tr : Track,
        char.tracks.any (fun t => pyLower t.name == pyLower tr.name) = false ∧
        (addAnimation char anim).1.tracks = char.tracks ++ [tr] := by
  by_cases h1 : bonesMatch char.bones anim.bones = false
  · left; simp [addAnimation, h1]
  · by_cases h2 : char.scale ≠ anim.scale
    · left; simp [addAnimation, h1, h2]
    · cases hact : anim.action with
      | none => left; simp [addAnimation, h1, h2, hact]
      | some act =>
          by_cases h3 : char.tracks.any (fun t =>
              pyLower t.name == pyLower (deriveTrackName anim.folderName anim.fileStem)) = true
          · left; simp [addAnimation, h1, h2, hact, h3]
          · rw [Bool.not_eq_true] at h3
            by_cases h4 : stripsUsing
                (char.tracks ++ [pendingTrack (deriveTrackName anim.folderName anim.fileStem)])
                (deriveTrackName anim.folderName anim.fileStem) = 0
            · right
              exact ⟨pendingTrack (deriveTrackName anim.folderName anim.fileStem), h3,
                by simp [addAnimation, h1, h2, hact, h3, h4]⟩
            · by_cases h5 : act.frameStart ≥ act.frameEnd
              · right
                exact ⟨pendingTrack (deriveTrackName anim.folderName anim.fileStem), h3,
                  by simp [addAnimation, h1, h2, hact, h3, h4, h5]⟩
              · right
                exact ⟨finalTrack (deriveTrackName anim.folderName anim.fileStem) act, h3,
                  by simp [addAnimation, h1, h2, hact, h3, h4, h5]⟩

lemma addAnimation_outcome (char : CharArm) (anim : AnimArm) :
    ((addAnimation char anim).1 = char ∧
        ((addAnimation char anim).2 = none ∨
          (addAnimation char anim).2 = some .skeletonMismatch ∨
          (addAnimation char anim).2 = some .scaleMismatch ∨
          (addAnimation char anim).2 = some .duplicateTrackName)) ∨
      ((∃ tr : Track, (addAnimation char anim).1.tracks = char.tracks ++ [tr]) ∧
        ((addAnimation char anim).2 = none ∨
          (addAnimation char anim).2 = some .actionUnused ∨
          (addAnimation char anim).2 = some .invalidFrameRange)) := by
  by_cases h1 : bonesMatch char.bones anim.bones = false
  · exact Or.inl ⟨by simp [addAnimation, h1], Or.inr (Or.inl (by simp [addAnimation, h1]))⟩
  · by_cases h2 : char.scale ≠ anim.scale
    · exact Or.inl ⟨by simp [addAnimation, h1, h2],
        Or.inr (Or.inr (Or.inl (by simp [addAnimation, h1, h2])))⟩
    · cases hact : anim.action with
      | none =>
          exact Or.inl ⟨by simp [addAnimation, h1, h2, hact],
            Or.inl (by simp [addAnimation, h1, h2, hact])⟩
      | some act =>
          by_cases h3 : char.tracks.any (fun t =>
              pyLower t.name == pyLower (deriveTrackName anim.folderName anim.fileStem)) = true
          · exact Or.inl ⟨by simp [addAnimation, h1, h2, hact, h3],
              Or.inr (Or.inr (Or.inr (by simp [addAnimation, h1, h2, hact, h3])))⟩
          · rw [Bool.not_eq_true] at h3
            by_cases h4 : stripsUsing
                (char.tracks ++ [pendingTrack (deriveTrackName anim.folderName anim.fileStem)])
                (deriveTrackName anim.folderName anim.fileStem) = 0
            · exact Or.inr
                ⟨⟨pendingTrack (deriveTrackName anim.folderName anim.fileStem),
                    by simp [addAnimation, h1, h2, hact, h3, h4]⟩,
                  Or.inr (Or.inl (by simp [addAnimation, h1, h2, hact, h3, h4]))⟩
            · by_cases h5 : act.frameStart ≥ act.frameEnd
              · exact Or.inr
                  ⟨⟨pendingTrack (deriveTrackName anim.folderName anim.fileStem),
                      by simp [addAnimation, h1, h2, hact, h3, h4, h5]⟩,
                    Or.inr (Or.inr (by simp [addAnimation, h1, h2, hact, h3, h4, h5]))⟩
              · exact Or.inr
                  ⟨⟨finalTrack (deriveTrackName anim.folderName anim.fileStem) act,
                      by simp [addAnimation, h1, h2, hact, h3, h4, h5]⟩,
                    Or.inl (by simp [addAnimation, h1, h2, hact, h3, h4, h5])⟩

lemma addAnimation_preserves_nodup (char : CharArm) (anim : AnimArm)
    (h : tracksNamesLowerNodup char.tracks) :
    tracksNamesLowerNodup (addAnimation char anim).1.tracks := by
  rcases addAnimation_cases char anim with heq | ⟨tr, hany, heq⟩
  · rw [heq]; exact h
  · unfold tracksNamesLowerNodup at h ⊢
    rw [heq, List.map_append]
    refine List.Nodup.append h (List.nodup_singleton _) ?_
    intro x hx hx2
    simp only [List.map_cons, List.map_nil, List.mem_singleton] at hx2
    subst hx2
    rcases List.mem_map.mp hx with ⟨t, htmem, hteq⟩
    have hfalse := List.any_eq_false.mp hany t htmem
    rw [beq_iff_eq] at hfalse
    exact hfalse hteq

lemma addAll_preserves_nodup : ∀ (anims : List AnimArm) (char : CharArm),
    tracksNamesLowerNodup char.tracks → tracksNamesLowerNodup (addAll char anims).1.tracks := by
  intro anims
  induction anims with
  | nil => intro char h; exact h
  | cons a rest ih =>
      intro char h
      have hc := addAnimation_preserves_nodup char a h
      rcases hsplit : addAnimation char a with ⟨c, oe⟩
      rw [hsplit] at hc
      cases oe with
      | none => simpa [addAll, hsplit] using ih c hc
      | some e => simpa [addAll, hsplit] using hc

/-- C4 (amended): in `combine_characters_and_animations` the case-insensitive
duplicate-name invariant holds — every sequence of additions onto a skeleton
whose track list has pairwise case-insensitively distinct names leaves it so,
and an addition whose derived name case-insensitively equals an existing
track's name is rejected with the duplicate-track-name error.  The parallel
path `combine_animations_into_skeleton` (mixamo-combine-animations.py),
however, performs no duplicate check at all (see the counterexample). -/
theorem track_names_nodup (char : CharArm) (anims : List AnimArm)
    (h : tracksNamesLowerNodup char.tracks) :
    tracksNamesLowerNodup (addAll char anims).1.tracks ∧
      ∀ (anim : AnimArm) (act : ActionData),
        bonesMatch char.bones anim.bones = true → char.scale = anim.scale →
        anim.action = some act →
        char.tracks.any (fun t =>
          pyLower t.name == pyLower (deriveTrackName anim.folderName anim.fileStem)) = true →
        (addAnimation char anim).2 = some .duplicateTrackName := by
  refine ⟨addAll_preserves_nodup anims char h, ?_⟩
  intro anim act hb hs hact hany
  simp [addAnimation, hb, hs, hact, hany]

def charW : CharArm := ⟨[("hips")], (1, 1, 1), []⟩

def animW : AnimArm := ⟨[("hips")], (1, 1, 1), ("walks"), ("clip"), some ⟨("clip"), 1, 10⟩⟩

theorem track_names_nodup_witness :
    tracksNamesLowerNodup (addAll charW [animW, animW]).1.tracks :=
  (track_names_nodup charW [animW, animW] List.nodup_nil).1

def dupTrack : Track := ⟨("walks - Clip"), [⟨("walks - Clip"), ("walks - Clip"), 1, 10⟩]⟩

def cexTracks : List Track := [dupTrack, dupTrack]

/-- `combine_animations_into_skeleton`'s per-armature step
(mixamo-combine-animations.py): its `bones_match` raises when the animation
has bones the combined skeleton lacks, a non-equal bone set raises, and
otherwise the action is added as a new NLA track — with no duplicate-name
check and no frame-range check. -/
def addClipNoCheck (charBones : List String) (tracks : List Track) (anim : AnimArm) :
    Except CombineError (List Track) :=
  if (anim.bones.filter (fun b => !charBones.contains b)) ≠ [] then
    .error .skeletonMismatch
  else if bonesMatch charBones anim.bones = false then .error .skeletonMismatch
  else
    match anim.action with
    | none => .ok tracks
    | some act =>
        let animName := deriveTrackName anim.folderName anim.fileStem
        .ok (tracks ++ [⟨animName, [⟨animName, animName, act.frameStart, act.frameEnd⟩]⟩])

def combineAll (charBones : List String) :
    List Track → List AnimArm → Except CombineError (List Track)
  | tracks, [] => .ok tracks
  | tracks, a :: rest =>
      match addClipNoCheck charBones tracks a with
      | .ok ts => combineAll charBones ts rest
      | .error e => .error e

/-- C4 counterexample: adding the same clip twice through
`combine_animations_into_skeleton` succeeds and leaves two tracks with equal
(hence case-insensitively equal) names — no duplicate-track-name rejection
occurs on this code path. -/
theorem duplicate_names_possible_cex :
    combineAll [("hips")] [] [animW, animW] = .ok cexTracks ∧
      ¬ tracksNamesLowerNodup cexTracks := by
  refine ⟨rfl, ?_⟩
  show ¬ (cexTracks.map (fun t => pyLower t.name)).Nodup
  decide

/-- C3 (amended): track addition is atomic only for the failures detected
before the track is created — skeleton mismatch, scale mismatch and
duplicate track name leave the character unchanged; but a failure of the
`users` or frame-range check happens after `nla_tracks.new()`, so the
rejected addition leaves exactly the newly created track appended to the
track list. -/
theorem add_clip_atomicity (char : CharArm) (anim : AnimArm) (e : CombineError)
    (h : (addAnimation char anim).2 = some e) :
    ((e = .skeletonMismatch ∨ e = .scaleMismatch ∨ e = .duplicateTrackName) →
        (addAnimation char anim).1 = char) ∧
      ((e = .actionUnused ∨ e = .invalidFrameRange) →
        ∃ tr : Track, (addAnimation char anim).1.tracks = char.tracks ++ [tr]) := by
  rcases addAnimation_outcome char anim with ⟨hst, hout⟩ | ⟨hex, hout⟩
  · refine ⟨fun _ => hst, fun hdisj => absurd hout ?_⟩
    rintro (h0 | h0 | h0 | h0) <;> rw [h] at h0
    · cases h0
    all_goals
      have he := Option.some.inj h0
      rcases hdisj with hd | hd <;> (rw [hd] at he; cases he)
  · refine ⟨fun hdisj => absurd hout ?_, fun _ => hex⟩
    rintro (h0 | h0 | h0) <;> rw [h] at h0
    · cases h0
    all_goals
      have he := Option.some.inj h0
      rcases hdisj with hd | hd | hd <;> (rw [hd] at he; cases he)

def animBad : AnimArm := ⟨[("hips")], (1, 1, 1), ("walks"), ("clip"), some ⟨("clip"), 5, 5⟩⟩

def charDup : CharArm := ⟨[("hips")], (1, 1, 1), [⟨("walks - Clip"), []⟩]⟩

theorem add_clip_atomicity_witness :
    (addAnimation charDup animW).1 = charDup ∧
      ∃ tr : Track, (addAnimation charW animBad).1.tracks = charW.tracks ++ [tr] :=
  ⟨(add_clip_atomicity charDup animW .duplicateTrackName (by decide)).1
      (Or.inr (Or.inr rfl)),
    (add_clip_atomicity charW animBad .invalidFrameRange (by decide)).2 (Or.inr rfl)⟩

/-- C3 counterexample: adding a clip whose action has an invalid frame range
(start 5 ≥ end 5) onto a character with an empty track list fails — but the
track list afterwards is not the one from before the operation: the newly
created track is still there. -/
theorem add_clip_nonatomic_cex :
    (addAnimation charW animBad).2 = some CombineError.invalidFrameRange ∧
      (addAnimation charW animBad).1.tracks ≠ charW.tracks := by
  exact ⟨by decide, by decide⟩

/-- C5 counterexample: for a clip imported from folder `walks` (lower case),
file `walk_cycle`, the code derives the track name `"walks - Walk_Cycle"` —
the folder part is used verbatim — while the claim's rule (title-cased folder
name) yields `"Walks - Walk_Cycle"`. -/
theorem track_name_folder_not_titled_cex :
    deriveTrackName ("walks") ("walk_cycle") = ("walks - Walk_Cycle") ∧
      specTitledTrackName ("walks") ("walk_cycle") = ("Walks - Walk_Cycle") ∧
      deriveTrackName ("walks") ("walk_cycle") ≠
        specTitledTrackName ("walks") ("walk_cycle") := by
  exact ⟨by decide, by decide, by decide⟩

/-- C5 (amended): the track name is the verbatim parent folder name (not
title-cased), the separator, and the title-cased file name, with the folder
token replaced by the literal `"None"` exactly when the folder is the
reserved collection name `animations`; on the claim's own example (folder
`Walks`, file `walk_cycle`) this still yields `"Walks - Walk_Cycle"`. -/
theorem track_name_derivation (folderName fileStem : String) :
    deriveTrackName folderName fileStem =
        (if folderName = ("animations") then ("None") else folderName) ++
          (" - ") ++ pyTitle fileStem ∧
      deriveTrackName ("Walks") ("walk_cycle") = ("Walks - Walk_Cycle") := by
  constructor
  · by_cases hf : folderName = ("animations")
    · simp only [deriveTrackName, if_pos hf]
      rfl
    · simp only [deriveTrackName, if_neg hf]
  · decide

/-! ## Image deduplication (synty-scifi-city.py, `deduplicate_images`)

Images are Blender datablocks, identified here by a numeric id (object
identity); each carries a display name and a filepath.  The content key is
`bpy.path.abspath(img.filepath)` when the filepath is non-empty, else the
name; `abspath` is an uninterpreted path-normalisation parameter `a`.
Materials are modelled by their texture-node slots: each slot optionally
references an image id (`getattr(node, "image", None)`).  The loop iterates
over a snapshot `bpy.data.images[:]` while mutating the image list and the
material node references. -/

structure DImage where
  id : Nat
  name : String
  filepath : String
deriving DecidableEq

structure DScene where
  images : List DImage
  mats : List (List (Option Nat))
deriving DecidableEq

def imgKey (a : String → String) (img : DImage) : String :=
  if img.filepath = ("") then img.name else a img.filepath

/-- `if getattr(node, 'image', None) == img: node.image = original`. -/
def rewriteNode (dupId origId : Nat) (n : Option Nat) : Option Nat :=
  if n = some dupId then some origId else n

/-- The loop of `deduplicate_images`, with the snapshot of images still to be
visited as the last argument and the `seen` dictionary as an association
list. -/
def dedupGo (a : String → String) : DScene → List (String × Nat) → List DImage → DScene
  | scn, _, [] => scn
  | scn, seen, img :: rest =>
      match seen.lookup (imgKey a img) with
      | some orig =>
          dedupGo a
            ⟨scn.images.filter (fun i => i.id != img.id),
              scn.mats.map (fun m => m.map (rewriteNode img.id orig))⟩
            seen rest
      | none => dedupGo a scn ((imgKey a img, img.id) :: seen) rest

def deduplicateImages (a : String → String) (sc : DScene) : DScene :=
  dedupGo a sc [] sc.images

/-- The ids of the images the loop will remove: an image is removed exactly
when its key is already in `seen` or has occurred earlier in the snapshot. -/
def removedIds (a : String → String) : List (String × Nat) → List DImage → List Nat
  | _, [] => []
  | seen, img :: rest =>
      match seen.lookup (imgKey a img) with
      | some _ => img.id :: removedIds a seen rest
      | none => removedIds a ((imgKey a img, img.id) :: seen) rest

/-- The image id a material node reference ends at once the loop finishes. -/
def finalRef (a : String → String) : List (String × Nat) → List DImage → Nat → Nat
  | _, [], i => i
  | seen, img :: rest, i =>
      match seen.lookup (imgKey a img) with
      | some orig => finalRef a seen rest (if i = img.id then orig else i)
      | none => finalRef a ((imgKey a img, img.id) :: seen) rest i

lemma dedupGo_images (a : String → String) :
    ∀ (rest : List DImage) (seen : List (String × Nat)) (scn : DScene),
      (dedupGo a scn seen rest).images =
        scn.images.filter (fun i => !(decide (i.id ∈ removedIds a seen rest))) := by
  intro rest
  induction rest with
  | nil =>
      intro seen scn
      simp [dedupGo, removedIds]
  | cons img rest ih =>
      intro seen scn
      cases hl : List.lookup (imgKey a img) seen with
      | some orig =>
          simp only [dedupGo, hl]
          rw [ih seen _]
          simp only [List.filter_filter]
          rw [show removedIds a seen (img :: rest) = img.id :: removedIds a seen rest by
            simp only [removedIds, hl]]
          apply List.filter_congr
          intro i _
          by_cases h1 : i.id = img.id <;> by_cases h2 : i.id ∈ removedIds a seen rest <;>
            simp [h1, h2, List.mem_cons]
      | none =>
          simp only [dedupGo, hl]
          rw [ih _ scn]
          rw [show removedIds a seen (img :: rest) =
            removedIds a ((imgKey a img, img.id) :: seen) rest by
            simp only [removedIds, hl]]

lemma rewrite_then_final (a : String → String) (seen : List (String × Nat))
    (img : DImage) (rest : List DImage) (orig : Nat)
    (hl : List.lookup (imgKey a img) seen = some orig) (n : Option Nat) :
    (rewriteNode img.id orig n).map (finalRef a seen rest) =
      n.map (finalRef a seen (img :: rest)) := by
  cases n with
  | none => simp [rewriteNode]
  | some i =>
      by_cases hi : i = img.id <;> simp [rewriteNode, hi, finalRef, hl]

lemma dedupGo_mats (a : String → String) :
    ∀ (rest : List DImage) (seen : List (String × Nat)) (scn : DScene),
      (dedupGo a scn seen rest).mats =
        scn.mats.map (fun m => m.map (fun n => n.map (finalRef a seen rest))) := by
  intro rest
  induction rest with
  | nil =>
      intro seen scn
      simp [dedupGo, finalRef]
  | cons img rest ih =>
      intro seen scn
      cases hl : List.lookup (imgKey a img) seen with
      | some orig =>
          simp only [dedupGo, hl]
          rw [ih seen _]
          simp only [List.map_map]
          apply List.map_congr_left
          intro m _
          simp only [Function.comp, List.map_map]
          apply List.map_congr_left
          intro n _
          exact rewrite_then_final a seen img rest orig hl n
      | none =>
          simp only [dedupGo, hl]
          rw [ih _ scn]
          have hfun : finalRef a seen (img :: rest) =
              finalRef a ((imgKey a img, img.id) :: seen) rest :=
            funext fun i => by simp only [finalRef, hl]
          rw [hfun]

lemma removedIds_sub (a : String → String) :
    ∀ (l : List DImage) (seen : List (String × Nat)) (x : Nat),
      x ∈ removedIds a seen l → x ∈ l.map DImage.id := by
  intro l
  induction l with
  | nil => intro seen x h; cases h
  | cons img rest ih =>
      intro seen x h
      cases hl : List.lookup (imgKey a img) seen with
      | some orig =>
          rw [show removedIds a seen (img :: rest) = img.id :: removedIds a seen rest by
            simp only [removedIds, hl]] at h
          rcases List.mem_cons.mp h with h | h
          · simp [h]
          · simp only [List.map_cons, List.mem_cons]
            exact Or.inr (ih seen x h)
      | none =>
          rw [show removedIds a seen (img :: rest) =
            removedIds a ((imgKey a img, img.id) :: seen) rest by
            simp only [removedIds, hl]] at h
          simp only [List.map_cons, List.mem_cons]
          exact Or.inr (ih _ x h)

lemma finalRef_fixed (a : String → String) :
    ∀ (l : List DImage) (seen : List (String × Nat)) (c : Nat),
      c ∉ removedIds a seen l → finalRef a seen l c = c := by
  intro l
  induction l with
  | nil => intro seen c _; rfl
  | cons img rest ih =>
      intro seen c h
      cases hl : List.lookup (imgKey a img) seen with
      | some orig =>
          rw [show removedIds a seen (img :: rest) = img.id :: removedIds a seen rest by
            simp only [removedIds, hl]] at h
          have hne : c ≠ img.id := fun he => h (he ▸ List.mem_cons_self _ _)
          have hrest : c ∉ removedIds a seen rest := fun hm => h (List.mem_cons_of_mem _ hm)
          simp only [finalRef, hl, if_neg hne]
          exact ih seen c hrest
      | none =>
          rw [show removedIds a seen (img :: rest) =
            removedIds a ((imgKey a img, img.id) :: seen) rest by
            simp only [removedIds, hl]] at h
          simp only [finalRef, hl]
          exact ih _ c h

lemma not_removed_first (a : String → String) :
    ∀ (l : List DImage) (seen : List (String × Nat)) (g : DImage),
      List.lookup (imgKey a g) seen = none →
      l.find? (fun i => imgKey a i == imgKey a g) = some g →
      (l.map DImage.id).Nodup →
      g.id ∉ removedIds a seen l := by
  intro l
  induction l with
  | nil => intro seen g _ hfind _; cases hfind
  | cons img rest ih =>
      intro seen g hseen hfind hnd
      obtain ⟨hid_not, hnd'⟩ : img.id ∉ rest.map DImage.id ∧ (rest.map DImage.id).Nodup := by
        simpa [List.nodup_cons] using hnd
      by_cases hpred : (imgKey a img == imgKey a g) = true
      · have hg : img = g := by
          rw [@List.find?_cons_of_pos _ (fun i => imgKey a i == imgKey a g) img rest hpred]
            at hfind
          exact Option.some.inj hfind
        have hl : List.lookup (imgKey a img) seen = none := by
          rw [eq_of_beq hpred]; exact hseen
        rw [show removedIds a seen (img :: rest) =
          removedIds a ((imgKey a img, img.id) :: seen) rest by
          simp only [removedIds, hl]]
        intro hin
        have := removedIds_sub a rest _ _ hin
        rw [← hg] at this
        exact hid_not this
      · have hpredf : (imgKey a img == imgKey a g) = false := by
          rwa [Bool.not_eq_true] at hpred
        have hfind' : rest.find? (fun i => imgKey a i == imgKey a g) = some g := by
          rwa [@List.find?_cons_of_neg _ (fun i => imgKey a i == imgKey a g) img rest
            (by simp [hpredf])] at hfind
        have hgrest : g ∈ rest := List.mem_of_find?_eq_some hfind'
        have hgid : g.id ≠ img.id := by
          intro he
          exact hid_not (he ▸ List.mem_map_of_mem DImage.id hgrest)
        cases hl : List.lookup (imgKey a img) seen with
        | some orig =>
            rw [show removedIds a seen (img :: rest) = img.id :: removedIds a seen rest by
              simp only [removedIds, hl]]
            intro hin
            rcases List.mem_cons.mp hin with h | h
            · exact hgid h
            · exact ih seen g hseen hfind' hnd' h
        | none =>
            rw [show removedIds a seen (img :: rest) =
              removedIds a ((imgKey a img, img.id) :: seen) rest by
              simp only [removedIds, hl]]
            apply ih _ g _ hfind' hnd'
            have hkne : (imgKey a g == imgKey a img) = false := by
              rcases Bool.eq_false_iff.mp hpredf with h
              exact Bool.eq_false_iff.mpr fun he => h (by rw [eq_of_beq he]; exact beq_self_eq_true _)
            simp [List.lookup, hkne, hseen]


lemma removed_dup (a : String → String) :
    ∀ (l : List DImage) (seen : List (String × Nat)) (d : DImage),
      d ∈ l → (l.map DImage.id).Nodup →
      ((List.lookup (imgKey a d) seen).isSome = true ∨
        l.find? (fun i => imgKey a i == imgKey a d) ≠ some d) →
      d.id ∈ removedIds a seen l := by
  intro l
  induction l with
  | nil => intro seen d hmem; cases hmem
  | cons img rest ih =>
      intro seen d hmem hnd hcond
      obtain ⟨hid_not, hnd'⟩ : img.id ∉ rest.map DImage.id ∧ (rest.map DImage.id).Nodup := by
        simpa [List.nodup_cons] using hnd
      by_cases hd : d = img
      · subst hd
        cases hl : List.lookup (imgKey a d) seen with
        | some orig =>
            rw [show removedIds a seen (d :: rest) = d.id :: removedIds a seen rest by
              simp only [removedIds, hl]]
            exact List.mem_cons_self _ _
        | none =>
            exfalso
            rcases hcond with h | h
            · rw [hl] at h; cases h
            · exact h (@List.find?_cons_of_pos _ (fun i => imgKey a i == imgKey a d) d rest
                (beq_self_eq_true _))
      · have hdr : d ∈ rest := (List.mem_cons.mp hmem).resolve_left hd
        have hne : d.id ≠ img.id := by
          intro he
          exact hid_not (he ▸ List.mem_map_of_mem DImage.id hdr)
        cases hl : List.lookup (imgKey a img) seen with
        | some orig =>
            rw [show removedIds a seen (img :: rest) = img.id :: removedIds a seen rest by
              simp only [removedIds, hl]]
            apply List.mem_cons_of_mem
            apply ih seen d hdr hnd'
            by_cases hkey : (imgKey a img == imgKey a d) = true
            · left
              rw [← eq_of_beq hkey, hl]
              rfl
            · have hkeyf : (imgKey a img == imgKey a d) = false := by
                rwa [Bool.not_eq_true] at hkey
              rcases hcond with h | h
              · exact Or.inl h
              · right
                rwa [@List.find?_cons_of_neg _ (fun i => imgKey a i == imgKey a d) img rest
                  (by simp [hkeyf])] at h
        | none =>
            rw [show removedIds a seen (img :: rest) =
              removedIds a ((imgKey a img, img.id) :: seen) rest by
              simp only [removedIds, hl]]
            apply ih _ d hdr hnd'
            by_cases hkey : (imgKey a img == imgKey a d) = true
            · left
              have : (imgKey a d == imgKey a img) = true := by
                rw [eq_of_beq hkey]; exact beq_self_eq_true _
              simp [List.lookup, this]
            · have hkeyf : (imgKey a img == imgKey a d) = false := by
                rwa [Bool.not_eq_true] at hkey
              have hkeyf' : (imgKey a d == imgKey a img) = false := by
                rcases Bool.eq_false_iff.mp hkeyf with h
                exact Bool.eq_false_iff.mpr fun he => h (by rw [eq_of_beq he]; exact beq_self_eq_true _)
              rcases hcond with h | h
              · left
                simpa [List.lookup, hkeyf'] using h
              · right
                rwa [@List.find?_cons_of_neg _ (fun i => imgKey a i == imgKey a d) img rest
                  (by simp [hkeyf])] at h

lemma finalRef_to_canon (a : String → String) :
    ∀ (l : List DImage) (seen : List (String × Nat)) (d g : DImage),
      d ∈ l → (l.map DImage.id).Nodup →
      ((List.lookup (imgKey a d) seen = some g.id ∧ ∀ r ∈ l, r.id ≠ g.id) ∨
        (List.lookup (imgKey a d) seen = none ∧
          l.find? (fun i => imgKey a i == imgKey a d) = some g)) →
      finalRef a seen l d.id = g.id := by
  intro l
  induction l with
  | nil => intro seen d g hmem; cases hmem
  | cons img rest ih =>
      intro seen d g hmem hnd hcase
      obtain ⟨hid_not, hnd'⟩ : img.id ∉ rest.map DImage.id ∧ (rest.map DImage.id).Nodup := by
        simpa [List.nodup_cons] using hnd
      rcases hcase with ⟨hlk, hnog⟩ | ⟨hlk, hfind⟩
      · cases hl : List.lookup (imgKey a img) seen with
        | some orig =>
            by_cases hd : d = img
            · subst hd
              have horig : orig = g.id := Option.some.inj (hl.symm.trans hlk)
              simp only [finalRef, hl, if_pos rfl]
              rw [horig]
              apply finalRef_fixed
              intro hin
              rcases List.mem_map.mp (removedIds_sub a rest seen _ hin) with ⟨r, hr, hre⟩
              exact hnog r (List.mem_cons_of_mem _ hr) hre
            · have hdr : d ∈ rest := (List.mem_cons.mp hmem).resolve_left hd
              have hne : d.id ≠ img.id := by
                intro he
                exact hid_not (he ▸ List.mem_map_of_mem DImage.id hdr)
              simp only [finalRef, hl, if_neg hne]
              exact ih seen d g hdr hnd'
                (Or.inl ⟨hlk, fun r hr => hnog r (List.mem_cons_of_mem _ hr)⟩)
        | none =>
            have hkne : imgKey a img ≠ imgKey a d := by
              intro he
              rw [← he, hl] at hlk
              cases hlk
            have hd : d ≠ img := fun he => hkne (by rw [he])
            have hdr : d ∈ rest := (List.mem_cons.mp hmem).resolve_left hd
            simp only [finalRef, hl]
            apply ih _ d g hdr hnd'
            left
            have hbeq : (imgKey a d == imgKey a img) = false :=
              Bool.eq_false_iff.mpr fun he => hkne (eq_of_beq he).symm
            exact ⟨by simp [List.lookup, hbeq, hlk],
              fun r hr => hnog r (List.mem_cons_of_mem _ hr)⟩
      · by_cases hpred : (imgKey a img == imgKey a d) = true
        · have hg : img = g := by
            rw [@List.find?_cons_of_pos _ (fun i => imgKey a i == imgKey a d) img rest hpred]
              at hfind
            exact Option.some.inj hfind
          have hkey : imgKey a img = imgKey a d := eq_of_beq hpred
          have hl : List.lookup (imgKey a img) seen = none := by rw [hkey]; exact hlk
          simp only [finalRef, hl]
          by_cases hd : d = img
          · subst hd
            rw [← hg]
            apply finalRef_fixed
            intro hin
            exact hid_not (removedIds_sub a rest _ _ hin)
          · have hdr : d ∈ rest := (List.mem_cons.mp hmem).resolve_left hd
            apply ih _ d g hdr hnd'
            left
            constructor
            · have hbeq : (imgKey a d == imgKey a img) = true := by
                rw [hkey]; exact beq_self_eq_true _
              rw [← hg]
              simp [List.lookup, hbeq]
            · intro r hr he
              rw [← hg] at he
              exact hid_not (he ▸ List.mem_map_of_mem DImage.id hr)
        · have hpredf : (imgKey a img == imgKey a d) = false := by
            rwa [Bool.not_eq_true] at hpred
          have hfind' : rest.find? (fun i => imgKey a i == imgKey a d) = some g := by
            rwa [@List.find?_cons_of_neg _ (fun i => imgKey a i == imgKey a d) img rest
              (by simp [hpredf])] at hfind
          have hd : d ≠ img := by
            intro he
            rw [he] at hpredf
            simp at hpredf
          have hdr : d ∈ rest := (List.mem_cons.mp hmem).resolve_left hd
          cases hl : List.lookup (imgKey a img) seen with
          | some orig =>
              have hne : d.id ≠ img.id := by
                intro he
                exact hid_not (he ▸ List.mem_map_of_mem DImage.id hdr)
              simp only [finalRef, hl, if_neg hne]
              exact ih seen d g hdr hnd' (Or.inr ⟨hlk, hfind'⟩)
          | none =>
              simp only [finalRef, hl]
              apply ih _ d g hdr hnd'
              right
              have hbeq : (imgKey a d == imgKey a img) = false :=
                Bool.eq_false_iff.mpr fun he =>
                  (Bool.eq_false_iff.mp hpredf)
                    (by rw [eq_of_beq he]; exact beq_self_eq_true _)
              exact ⟨by simp [List.lookup, hbeq, hlk], hfind'⟩

lemma filter_eq_singleton (p : DImage → Bool) :
    ∀ (l : List DImage) (g : DImage),
      l.Nodup → g ∈ l → (∀ i ∈ l, p i = true ↔ i = g) → l.filter p = [g] := by
  intro l
  induction l with
  | nil => intro g _ hmem; cases hmem
  | cons x xs ih =>
      intro g hnd hmem hiff
      obtain ⟨hx_not, hnd'⟩ := List.nodup_cons.mp hnd
      by_cases hx : x = g
      · subst hx
        have hp : p x = true := (hiff x (List.mem_cons_self x xs)).mpr rfl
        rw [List.filter_cons_of_pos hp]
        have hnil : xs.filter p = [] := by
          rw [List.filter_eq_nil_iff]
          intro i hi hpi
          have := (hiff i (List.mem_cons_of_mem _ hi)).mp hpi
          exact hx_not (this ▸ hi)
        rw [hnil]
      · have hp : p x = false := by
          cases hpx : p x
          · rfl
          · exact absurd ((hiff x (List.mem_cons_self x xs)).mp hpx) hx
        rw [List.filter_cons_of_neg (by simp [hp])]
        exact ih g hnd' ((List.mem_cons.mp hmem).resolve_left fun he => hx he.symm)
          fun i hi => hiff i (List.mem_cons_of_mem _ hi)

/-- C6 (amended): image/texture deduplication groups images by content key
and, for every group (of size ≥ 2), keeps exactly its first member in input
order — with **no** preference for a display name free of a numeric `.NNN`
duplication suffix (that preference exists only in the separate material
deduplication pass) — and reassigns every material node that referenced any
member of the group to that first member. -/
theorem image_dedup_first_canonical (a : String → String) (sc : DScene) (k : String)
    (g : DImage) (hnd : (sc.images.map DImage.id).Nodup)
    (hfind : sc.images.find? (fun i => imgKey a i == k) = some g)
    (hlen : 2 ≤ (sc.images.filter (fun i => imgKey a i == k)).length) :
    (deduplicateImages a sc).images.filter (fun i => imgKey a i == k) = [g] ∧
      (deduplicateImages a sc).mats =
        sc.mats.map (fun m => m.map (fun n => n.map (finalRef a [] sc.images))) ∧
      ∀ d ∈ sc.images, imgKey a d = k → finalRef a [] sc.images d.id = g.id := by
  have hgmem : g ∈ sc.images := List.mem_of_find?_eq_some hfind
  have hpg : (imgKey a g == k) = true :=
    @List.find?_some _ (fun i => imgKey a i == k) g sc.images hfind
  have hgkey : imgKey a g = k := eq_of_beq hpg
  refine ⟨?_, ?_, ?_⟩
  · rw [show (deduplicateImages a sc).images =
        sc.images.filter (fun i => !(decide (i.id ∈ removedIds a [] sc.images))) from
      dedupGo_images a sc.images [] sc]
    rw [List.filter_filter]
    apply filter_eq_singleton _ _ _ (List.Nodup.of_map _ hnd) hgmem
    intro i himem
    constructor
    · intro h
      simp only [Bool.and_eq_true] at h
      obtain ⟨hkeybeq, hkeep⟩ := h
      by_contra hne
      have hikey : imgKey a i = k := eq_of_beq hkeybeq
      have hrem : i.id ∈ removedIds a [] sc.images := by
        apply removed_dup a sc.images [] i himem hnd
        right
        rw [show (fun x => imgKey a x == imgKey a i) = (fun x => imgKey a x == k) by
          rw [hikey]]
        rw [hfind]
        intro he
        exact hne (Option.some.inj he).symm
      rw [decide_eq_true hrem] at hkeep
      cases hkeep
    · intro h
      subst h
      have hnotrem : i.id ∉ removedIds a [] sc.images := by
        apply not_removed_first a sc.images [] i rfl _ hnd
        rw [show (fun x => imgKey a x == imgKey a i) = (fun x => imgKey a x == k) by
          rw [hgkey]]
        exact hfind
      rw [decide_eq_false hnotrem]
      simp [hgkey]
  · exact dedupGo_mats a sc.images [] sc
  · intro d hdmem hdkey
    apply finalRef_to_canon a sc.images [] d g hdmem hnd
    right
    refine ⟨rfl, ?_⟩
    rw [show (fun i => imgKey a i == imgKey a d) = (fun i => imgKey a i == k) by
      rw [hdkey]]
    exact hfind

def idPath (s : String) : String := s

def wScene : DScene :=
  ⟨[⟨0, ("A"), ("k.png")⟩, ⟨1, ("B"), ("k.png")⟩], [[some 0, some 1]]⟩

set_option maxRecDepth 4000 in
theorem image_dedup_first_canonical_witness :
    (deduplicateImages idPath wScene).images.filter
        (fun i => imgKey idPath i == ("k.png")) = [⟨0, ("A"), ("k.png")⟩] ∧
      (deduplicateImages idPath wScene).mats =
        wScene.mats.map (fun m => m.map (fun n => n.map (finalRef idPath [] wScene.images))) ∧
      ∀ d ∈ wScene.images, imgKey idPath d = ("k.png") →
        finalRef idPath [] wScene.images d.id = (0 : Nat) :=
  image_dedup_first_canonical idPath wScene ("k.png") ⟨0, ("A"), ("k.png")⟩
    (by decide) (by decide) (by decide)

/-- `f'.{i:03d}'` for `i` in `range(1, 1000)`. -/
def pad3 (i : Nat) : String :=
  if i < 10 then ("00") ++ toString i
  else if i < 100 then ("0") ++ toString i
  else toString i

def numSuffix (i : Nat) : String := (".") ++ pad3 i

/-- `any(name.endswith(f'.{i:03d}') for i in range(1, 1000))`: the numeric
duplication-suffix test used by the material deduplication pass. -/
def hasNumSuffix (s : String) : Bool :=
  (List.range' 1 999).any (fun i => (numSuffix i).data.isSuffixOf s.data)

def cexScene : DScene :=
  ⟨[⟨0, ("A.001"), ("k.png")⟩, ⟨1, ("A"), ("k.png")⟩], [[some 0, some 1]]⟩

set_option maxRecDepth 100000 in
/-- C6 counterexample: two images share the content key `k.png`; the first in
input order carries the numeric duplication suffix `.001`, the second does
not.  The code keeps the suffixed first member (reassigning both node
references to it) — it does not prefer the member without a `.NNN` suffix. -/
theorem image_dedup_suffix_cex :
    (deduplicateImages idPath cexScene).images = [⟨0, ("A.001"), ("k.png")⟩] ∧
      hasNumSuffix ("A.001") = true ∧ hasNumSuffix ("A") = false ∧
      (deduplicateImages idPath cexScene).mats = [[some 0, some 0]] := by
  refine ⟨rfl, by decide, by decide, rfl⟩

/-! ## Missing-asset policy (synty-scifi-city.py `fix_missing_mesh_materials`,
mixamo-add-animations-to-character.py `normalize_and_deduplicate_images`)

The filesystem is abstracted: `existsTex b` states that a file named `b`
exists in the output `textures/` directory, `fsExists p` that the absolute
path `p` exists, and `abspath` is `bpy.path.abspath`. -/

/-- The `FILE_REPLACEMENTS` alias table. -/
def fileReplacements : List (String × String) :=
  [(("PolygonScifi_Texture.psd"), ("PolygonScifi_01_A.png")),
   (("Building_Window_Emissive.psd"), ("PolygonScifi_Background_Building_Emissive.png")),
   (("PolygonScifi_.psd"), ("PolygonScifi_01_A.png")),
   (("BillboardsGraffiti_01.psd"), ("Billboards.png")),
   (("PolygonCity_Road_01.png"), ("PolygonSciFi_Road_01.png")),
   (("PolygonCity_Texture_01_A.png"), ("PolygonScifi_01_A.png")),
   (("Signs_Emission.psd"), ("PolygonScifi_Emissive_01.png")),
   (("Neon_Animation.psd"), ("Billboards.png")),
   (("PolygonScifi_Texture_Mike.psd"), ("PolygonScifi_01_A.png")),
   (("PolygonSciFiCity_Texture_01_A.png"), ("PolygonScifi_01_A.png"))]

/-- Python's `old_name in img_path`: the pattern occurs as a substring
exactly when splitting on it yields more than one part. -/
def containsSub (s pat : String) : Bool := (s.splitOn pat).length != 1

/-- `for old_name, new_name in FILE_REPLACEMENTS.items(): if old_name in
img_path: img_path = img_path.replace(old_name, new_name)`. -/
def applyRepl (p : String) : String :=
  fileReplacements.foldl
    (fun acc r => if containsSub acc r.1 then acc.replace r.1 r.2 else acc) p

def pathSep : Char := '/'

/-- `os.path.basename`. -/
def basename (p : String) : String :=
  String.mk ((p.data.reverse.takeWhile (fun c => c != pathSep)).reverse)

inductive AssetError
  | missingAsset (path : String)
deriving DecidableEq

/-- The state a texture node and its material are left in by
`fix_missing_mesh_materials`: the image datablock's name, the rewritten
relative filepath, and the material's new name. -/
structure NodeFix where
  imageName : String
  imageFilepath : String
  matName : String
deriving DecidableEq

/-- One `TEX_IMAGE` node of `fix_missing_mesh_materials`: if the basename
resolves in the output textures directory the reference is kept (the image is
renamed to the mesh and repathed into `textures/`); otherwise the
`FILE_REPLACEMENTS` table is applied and the replacement must resolve, else
the fatal missing-asset error is raised. -/
def fixNode (existsTex : String → Bool) (meshName : String) (imgPath : String) :
    Except AssetError NodeFix :=
  if existsTex (basename imgPath) then
    .ok ⟨meshName, ("textures/") ++ basename imgPath, basename imgPath⟩
  else
    if existsTex (basename (applyRepl imgPath)) then
      .ok ⟨basename (applyRepl imgPath), ("textures/") ++ basename (applyRepl imgPath),
        basename (applyRepl imgPath)⟩
    else .error (.missingAsset (applyRepl imgPath))

inductive ImgKind
  | renderResult
  | compositing
  | normal
deriving DecidableEq

structure BImage where
  name : String
  filepath : String
  packed : Bool
  kind : ImgKind
  sizeW : Nat
  sizeH : Nat
deriving DecidableEq

inductive NormStatus
  | skippedKind
  | alreadyPacked
  | packedNow
  | generatedSkip
deriving DecidableEq

inductive NormError
  | missingTexture (path : String)
  | noData (name : String)
deriving DecidableEq

/-- Step 1 of `normalize_and_deduplicate_images` for one image datablock:
render/compositing images are skipped, packed images are kept, an external
image whose absolute path exists is packed, a missing external file raises,
a pathless image with nonzero raster size is only warned about, and a
pathless image without data raises. -/
def normalizeImage (fsExists : String → Bool) (abspath : String → String)
    (img : BImage) : Except NormError NormStatus :=
  if img.kind ≠ ImgKind.normal then .ok .skippedKind
  else if img.packed then .ok .alreadyPacked
  else if img.filepath ≠ ("") then
    if fsExists (abspath img.filepath) then .ok .packedNow
    else .error (.missingTexture img.filepath)
  else if 0 < img.sizeW ∧ 0 < img.sizeH then .ok .generatedSkip
  else .error (.noData img.name)

/-- C7: the missing-asset policy.  In `fix_missing_mesh_materials` a texture
reference that does not resolve in the output textures directory is rewritten
through the `FILE_REPLACEMENTS` alias table: when the replacement resolves,
processing continues with the rewritten reference (a warning is printed);
otherwise that reference fails with the fatal missing-asset error.  In
`normalize_and_deduplicate_images` an unpacked (non-embedded) reference with
a non-empty path that does not resolve fails with the missing-asset error
(no alias table is configured on that path), while a reference with no path,
no packed data, and nonzero raster dimensions is a warning — the image is
skipped, not an error. -/
theorem missing_asset_policy (existsTex : String → Bool) (meshName imgPath : String)
    (fsExists : String → Bool) (abspath : String → String) (img : BImage) :
    (existsTex (basename imgPath) = false →
      existsTex (basename (applyRepl imgPath)) = false →
      fixNode existsTex meshName imgPath = .error (.missingAsset (applyRepl imgPath))) ∧
    (existsTex (basename imgPath) = false →
      existsTex (basename (applyRepl imgPath)) = true →
      fixNode existsTex meshName imgPath =
        .ok ⟨basename (applyRepl imgPath),
          ("textures/") ++ basename (applyRepl imgPath),
          basename (applyRepl imgPath)⟩) ∧
    (img.kind = ImgKind.normal → img.packed = false → img.filepath ≠ ("") →
      fsExists (abspath img.filepath) = false →
      normalizeImage fsExists abspath img = .error (.missingTexture img.filepath)) ∧
    (img.kind = ImgKind.normal → img.packed = false → img.filepath = ("") →
      0 < img.sizeW → 0 < img.sizeH →
      normalizeImage fsExists abspath img = .ok .generatedSkip) := by
  refine ⟨?_, ?_, ?_, ?_⟩
  · intro h1 h2
    simp [fixNode, h1, h2]
  · intro h1 h2
    simp [fixNode, h1, h2]
  · intro hk hp hf he
    simp [normalizeImage, hk, hp, hf, he]
  · intro hk hp hf h1 h2
    simp [normalizeImage, hk, hp, hf, h1, h2]

/-! ## T-pose conformance (mixamo-add-animations-to-character.py,
`is_in_t_pose`)

Pose-bone geometry over the reals: the bone direction is `tail - head`, its
length is the Euclidean norm, the angle from the vertical axis is
`degrees(acos(abs(z-component of the normalized direction)))` and the
deviation is `90 - angle`.  The corrective (`fix`) branch is commented out in
the source, so the check only reads the pose and returns a boolean. -/

structure V3 where
  x : ℝ
  y : ℝ
  z : ℝ

def vsub (u v : V3) : V3 := ⟨u.x - v.x, u.y - v.y, u.z - v.z⟩

noncomputable def vlen (v : V3) : ℝ := Real.sqrt (v.x ^ 2 + v.y ^ 2 + v.z ^ 2)

structure PBone where
  name : String
  head : V3
  tail : V3

structure SceneObj where
  isArm : Bool
  poseBones : List PBone

/-- `math.degrees`. -/
noncomputable def degOf (r : ℝ) : ℝ := r * (180 / Real.pi)

/-- `math.degrees(math.acos(abs(vecn.z)))` for the normalized direction. -/
noncomputable def verticalAngleDeg (v : V3) : ℝ := degOf (Real.arccos |v.z / vlen v|)

/-- `deviation = 90.0 - vertical_angle`. -/
noncomputable def deviationDeg (v : V3) : ℝ := 90 - verticalAngleDeg v

/-- The fixed checked bone names `f"mixamorig:{side}Arm"` for both sides. -/
def checkedBoneKeys : List String := [("mixamorig:LeftArm"), ("mixamorig:RightArm")]

def deviationThresholdDefault : ℝ := 1

open Classical in
/-- A checked bone trips the `any_deviation` flag: its direction is not
degenerate and its absolute deviation exceeds the threshold. -/
noncomputable def boneDeviates (threshold : ℝ) (b : PBone) : Bool :=
  if vlen (vsub b.tail b.head) = 0 then false
  else if |deviationDeg (vsub b.tail b.head)| > threshold then true else false

/-- The check for one armature and one checked bone name:
`bone = obj.pose.bones.get(bone_key)` followed by the deviation measurement;
an absent bone contributes nothing. -/
noncomputable def checkKey (threshold : ℝ) (obj : SceneObj) (key : String) : Bool :=
  match obj.poseBones.find? (fun b => b.name == key) with
  | none => false
  | some b => boneDeviates threshold b

lemma checkKey_of_none {obj : SceneObj} {key : String} (threshold : ℝ)
    (h : obj.poseBones.find? (fun b => b.name == key) = none) :
    checkKey threshold obj key = false := by
  unfold checkKey
  rw [h]

lemma checkKey_of_some {obj : SceneObj} {key : String} {b : PBone} (threshold : ℝ)
    (h : obj.poseBones.find? (fun b => b.name == key) = some b) :
    checkKey threshold obj key = boneDeviates threshold b := by
  unfold checkKey
  rw [h]

/-- `is_in_t_pose`: scans every armature of the collection and both checked
bone names, skipping absent bones, and returns `not any_deviation`. -/
noncomputable def isInTPose (col : List SceneObj) (threshold : ℝ) : Bool :=
  !(col.any (fun obj => obj.isArm && checkedBoneKeys.any (checkKey threshold obj)))

lemma isInTPose_eq_true_iff (col : List SceneObj) (threshold : ℝ) :
    isInTPose col threshold = true ↔
      ∀ obj ∈ col, obj.isArm = true →
        ∀ key ∈ checkedBoneKeys, ∀ b : PBone,
          obj.poseBones.find? (fun x => x.name == key) = some b →
          vlen (vsub b.tail b.head) ≠ 0 →
          |deviationDeg (vsub b.tail b.head)| ≤ threshold := by
  rw [isInTPose, Bool.not_eq_true']
  constructor
  · intro h obj hobj harm key hkey b hfind hlen0
    have hobj' := List.any_eq_false.mp h obj hobj
    rw [Bool.and_eq_true] at hobj'
    have hinner : ¬ (checkedBoneKeys.any (checkKey threshold obj) = true) :=
      fun hi => hobj' ⟨harm, hi⟩
    rw [Bool.not_eq_true] at hinner
    have hkeyv := List.any_eq_false.mp hinner key hkey
    rw [checkKey_of_some threshold hfind] at hkeyv
    by_contra hcon
    have hgt : |deviationDeg (vsub b.tail b.head)| > threshold := not_le.mp hcon
    rw [boneDeviates, if_neg hlen0, if_pos hgt] at hkeyv
    exact hkeyv rfl
  · intro h
    apply List.any_eq_false.mpr
    intro obj hobj hand
    rw [Bool.and_eq_true] at hand
    obtain ⟨harm, hin⟩ := hand
    rcases List.any_eq_true.mp hin with ⟨key, hkey, hpred⟩
    cases hfind : obj.poseBones.find? (fun x => x.name == key) with
    | none => rw [checkKey_of_none threshold hfind] at hpred; cases hpred
    | some b =>
        rw [checkKey_of_some threshold hfind] at hpred
        by_cases hlen0 : vlen (vsub b.tail b.head) = 0
        · rw [boneDeviates, if_pos hlen0] at hpred
          cases hpred
        · have hle := h obj hobj harm key hkey b hfind hlen0
          by_cases hgt : |deviationDeg (vsub b.tail b.head)| > threshold
          · exact absurd hle (not_le.mpr hgt)
          · rw [boneDeviates, if_neg hlen0, if_neg hgt] at hpred
            cases hpred

/-- C9: the T-pose conformance check is a pure pass/fail predicate (the
corrective branch is commented out in the source): its default threshold is
1.0°, and it reports the collection as conforming exactly when no checked
bone that is present and non-degenerate has `|deviation| = |90° - angle
from the vertical axis of the normalized tail-minus-head direction|`
exceeding the threshold. -/
theorem t_pose_check_characterization (col : List SceneObj) (threshold : ℝ) :
    deviationThresholdDefault = (1 : ℝ) ∧
      (isInTPose col threshold = true ↔
        ∀ obj ∈ col, obj.isArm = true →
          ∀ key ∈ checkedBoneKeys, ∀ b : PBone,
            obj.poseBones.find? (fun x => x.name == key) = some b →
            vlen (vsub b.tail b.head) ≠ 0 →
            |deviationDeg (vsub b.tail b.head)| ≤ threshold) :=
  ⟨rfl, isInTPose_eq_true_iff col threshold⟩

/-- C10: when no checked bone name is present in any armature of the
collection, or every checked bone that is present has a zero-length direction
vector, the T-pose check reports the collection as conforming — absent and
degenerate bones are silently skipped, and only a measured deviation can
cause a failure. -/
theorem t_pose_check_vacuous (col : List SceneObj) (threshold : ℝ)
    (h : ∀ obj ∈ col, obj.isArm = true →
      ∀ key ∈ checkedBoneKeys, ∀ b : PBone,
        obj.poseBones.find? (fun x => x.name == key) = some b →
        vlen (vsub b.tail b.head) = 0) :
    isInTPose col threshold = true :=
  (isInTPose_eq_true_iff col threshold).mpr
    (fun obj hobj harm key hkey b hfind hlen0 =>
      absurd (h obj hobj harm key hkey b hfind) hlen0)

/-- A degenerate checked bone: head and tail coincide. -/
def degBone : PBone := ⟨("mixamorig:LeftArm"), ⟨0, 0, 0⟩, ⟨0, 0, 0⟩⟩

def wCol : List SceneObj := [⟨true, [degBone]⟩]

theorem t_pose_check_vacuous_witness : isInTPose wCol 1 = true := by
  apply t_pose_check_vacuous wCol 1
  intro obj hobj harm key hkey b hfind
  have hobj' : obj = (⟨true, [degBone]⟩ : SceneObj) := by
    simpa [wCol] using hobj
  subst hobj'
  simp only [checkedBoneKeys, List.mem_cons, List.not_mem_nil, or_false] at hkey
  rcases hkey with hk | hk
  · subst hk
    have : List.find? (fun x => x.name == ("mixamorig:LeftArm"))
        [degBone] = some degBone := rfl
    rw [this] at hfind
    have hb : b = degBone := (Option.some.inj hfind).symm
    subst hb
    show vlen (vsub degBone.tail degBone.head) = 0
    have h0 : vsub degBone.tail degBone.head = ⟨0, 0, 0⟩ := by
      simp [vsub, degBone]
    rw [h0]
    show Real.sqrt ((0 : ℝ) ^ 2 + (0 : ℝ) ^ 2 + (0 : ℝ) ^ 2) = 0
    simp
  · subst hk
    have : List.find? (fun x => x.name == ("mixamorig:RightArm"))
        [degBone] = none := rfl
    rw [this] at hfind
    cases hfind

end GameAsset
